import Mathlib

/-!
Shallow embedding of the mosaic-mashup core (tile physics, Voronoi adjacency,
selection chains and level inventory).  JavaScript numbers are modelled as
exact rationals; object identity is modelled by a numeric `id` carried by each
tile, and JavaScript `Map`s by association lists in insertion order.
-/

namespace Mosaic

/-- A circular game tile.  Mirrors the `Tile` interface (pos, vel, size,
colorID, weight, isHighlighted); `weight` is `Option ℚ` because the `GameTile`
class never assigns it (reading it yields `undefined`, modelled as `none`).
The `id` field models JavaScript object identity (`===`). -/
structure Tile where
  id : ℕ
  posX : ℚ
  posY : ℚ
  velX : ℚ
  velY : ℚ
  size : ℚ
  colorID : ℕ
  weight : Option ℚ
  isHighlighted : Bool
deriving Repr, DecidableEq

/-- The `GameTile` constructor: sets pos, vel, size, colorID and the highlight
flag, and assigns no weight.  `id` is the fresh object identity supplied by
the caller. -/
def mkGameTile (id : ℕ) (posX posY velX velY size : ℚ) (colorID : ℕ)
    (isHighlighted : Bool := false) : Tile :=
  { id := id, posX := posX, posY := posY, velX := velX, velY := velY,
    size := size, colorID := colorID, weight := none,
    isHighlighted := isHighlighted }

/-- `GameTile.isSameColor`. -/
def isSameColor (t other : Tile) : Bool := t.colorID = other.colorID

/-! ### Adjacency oracle (`GameLevel.isAdjacentTiles`)

The bisector of `tile1` and `tile2` is parameterized as `P(t) = M + t·U`;
the valid interval `[tMin, tMax]` starts at `(-∞, +∞)`, modelled as
`Option ℚ` bounds where `none` stands for the corresponding infinity. -/

/-- The epsilon `1e-9` used by the near-parallel test. -/
def EPS : ℚ := 1 / 1000000000

/-- `tMin >= tMax` over the extended line: false whenever either bound is
still infinite (`none`), as in IEEE comparison with `±Infinity`. -/
def lowerGE (tMin tMax : Option ℚ) : Bool :=
  match tMin, tMax with
  | some l, some u => decide (u ≤ l)
  | _, _ => false

/-- `if (cut > tMin) tMin = cut` with `none` as `-∞`. -/
def updLower (tMin : Option ℚ) (cut : ℚ) : Option ℚ :=
  match tMin with
  | none => some cut
  | some l => if l < cut then some cut else some l

/-- `if (cut < tMax) tMax = cut` with `none` as `+∞`. -/
def updUpper (tMax : Option ℚ) (cut : ℚ) : Option ℚ :=
  match tMax with
  | none => some cut
  | some u => if cut < u then some cut else some u

/-- `coeff = 2 * ((A - C) dot U)` for competitor `c`. -/
def coeffOf (t1 c : Tile) (ux uy : ℚ) : ℚ :=
  2 * ((t1.posX - c.posX) * ux + (t1.posY - c.posY) * uy)

/-- `rhs = |M - A|^2 - |M - C|^2` where `dR = |M - A|^2` is precomputed. -/
def rhsOf (mx my dR : ℚ) (c : Tile) : ℚ :=
  dR - ((mx - c.posX) ^ 2 + (my - c.posY) ^ 2)

/-- The clipping loop of `isAdjacentTiles`: every competitor tile either
skips (it is `t1` or `t2`), blocks the whole edge (parallel bisector at
least as close to `M`), or tightens one end of the interval; the loop
returns `false` as soon as the interval closes. -/
def clipTiles (t1 t2 : Tile) (mx my ux uy dR : ℚ) :
    List Tile → Option ℚ → Option ℚ → Bool
  | [], _, _ => true
  | c :: rest, tMin, tMax =>
    if c.id = t1.id ∨ c.id = t2.id then
      clipTiles t1 t2 mx my ux uy dR rest tMin tMax
    else if |coeffOf t1 c ux uy| < EPS then
      if 0 ≤ rhsOf mx my dR c then false
      else if lowerGE tMin tMax then false
      else clipTiles t1 t2 mx my ux uy dR rest tMin tMax
    else
      let cut := rhsOf mx my dR c / coeffOf t1 c ux uy
      let tMin' := if 0 < coeffOf t1 c ux uy then updLower tMin cut else tMin
      let tMax' := if 0 < coeffOf t1 c ux uy then tMax else updUpper tMax cut
      if lowerGE tMin' tMax' then false
      else clipTiles t1 t2 mx my ux uy dR rest tMin' tMax'

/-- `GameLevel.isAdjacentTiles`: identical tiles are never adjacent; otherwise
clip the perpendicular bisector (midpoint `M`, direction `U = rot90(B-A)`)
against every other tile and report whether a non-empty interval survives. -/
def isAdjacentTiles (tiles : List Tile) (t1 t2 : Tile) : Bool :=
  if t1.id = t2.id then false
  else
    clipTiles t1 t2
      ((t1.posX + t2.posX) / 2) ((t1.posY + t2.posY) / 2)
      (-(t2.posY - t1.posY)) (t2.posX - t1.posX)
      (((t1.posX + t2.posX) / 2 - t1.posX) ^ 2 +
        ((t1.posY + t2.posY) / 2 - t1.posY) ^ 2)
      tiles none none

/-- `coeff` as computed inside `isAdjacentTiles tiles a b` for competitor `c`. -/
def adjCoeff (a b c : Tile) : ℚ :=
  coeffOf a c (-(b.posY - a.posY)) (b.posX - a.posX)

/-- `rhs` as computed inside `isAdjacentTiles tiles a b` for competitor `c`. -/
def adjRhs (a b c : Tile) : ℚ :=
  rhsOf ((a.posX + b.posX) / 2) ((a.posY + b.posY) / 2)
    (((a.posX + b.posX) / 2 - a.posX) ^ 2 +
      ((a.posY + b.posY) / 2 - a.posY) ^ 2) c

/-! ### Symmetry of the clipping loop

Querying `(t2, t1)` re-parameterizes the same bisector with `U' = -U` and
`t' = -t`, so the running interval is reflected: `[tMin', tMax'] =
[-tMax, -tMin]`. -/

lemma lowerGE_neg (a b : Option ℚ) :
    lowerGE (Option.map Neg.neg b) (Option.map Neg.neg a) = lowerGE a b := by
  cases a <;> cases b <;> simp [lowerGE]

lemma updUpper_negLower (a : Option ℚ) (c : ℚ) :
    updUpper (Option.map Neg.neg a) (-c) = Option.map Neg.neg (updLower a c) := by
  cases a with
  | none => simp [updUpper, updLower]
  | some l =>
    simp only [Option.map, updUpper, updLower, neg_lt_neg_iff]
    split_ifs <;> simp

lemma updLower_negUpper (b : Option ℚ) (c : ℚ) :
    updLower (Option.map Neg.neg b) (-c) = Option.map Neg.neg (updUpper b c) := by
  cases b with
  | none => simp [updUpper, updLower]
  | some u =>
    simp only [Option.map, updUpper, updLower, neg_lt_neg_iff]
    split_ifs <;> simp

/-- Swapping the two query tiles negates every clipping coefficient (the
direction vector flips while `(B-A)·U = 0`), leaves every right-hand side
unchanged, and reflects the interval; the loop's verdict is identical. -/
lemma clipTiles_swap (t1 t2 : Tile) (mx my ux uy dR : ℚ)
    (hux : ux = -(t2.posY - t1.posY)) (huy : uy = t2.posX - t1.posX) :
    ∀ (l : List Tile) (tMin tMax : Option ℚ),
    clipTiles t2 t1 mx my (-ux) (-uy) dR l
        (Option.map Neg.neg tMax) (Option.map Neg.neg tMin)
      = clipTiles t1 t2 mx my ux uy dR l tMin tMax := by
  intro l
  induction l with
  | nil => intro tMin tMax; simp [clipTiles]
  | cons c rest ih =>
    intro tMin tMax
    have hcoeff : coeffOf t2 c (-ux) (-uy) = -(coeffOf t1 c ux uy) := by
      subst hux huy
      simp only [coeffOf]
      ring
    by_cases hid : c.id = t1.id ∨ c.id = t2.id
    · have hid' : c.id = t2.id ∨ c.id = t1.id := hid.symm
      simp only [clipTiles, if_pos hid, if_pos hid']
      exact ih tMin tMax
    · have hid' : ¬(c.id = t2.id ∨ c.id = t1.id) := fun h => hid h.symm
      simp only [clipTiles, if_neg hid, if_neg hid']
      by_cases hpar : |coeffOf t1 c ux uy| < EPS
      · have hpar' : |coeffOf t2 c (-ux) (-uy)| < EPS := by
          rw [hcoeff, abs_neg]; exact hpar
        rw [if_pos hpar, if_pos hpar']
        by_cases hrhs : 0 ≤ rhsOf mx my dR c
        · rw [if_pos hrhs, if_pos hrhs]
        · rw [if_neg hrhs, if_neg hrhs, lowerGE_neg]
          by_cases hge : lowerGE tMin tMax = true
          · rw [if_pos hge, if_pos hge]
          · rw [if_neg hge, if_neg hge]
            exact ih tMin tMax
      · have hpar' : ¬(|coeffOf t2 c (-ux) (-uy)| < EPS) := by
          rw [hcoeff, abs_neg]; exact hpar
        rw [if_neg hpar, if_neg hpar']
        have hne : coeffOf t1 c ux uy ≠ 0 := by
          intro h0
          exact hpar (by rw [h0]; norm_num [EPS])
        have hcut : rhsOf mx my dR c / coeffOf t2 c (-ux) (-uy)
            = -(rhsOf mx my dR c / coeffOf t1 c ux uy) := by
          rw [hcoeff, div_neg]
        rcases lt_or_gt_of_ne hne with hneg | hpos
        · have h1 : ¬(0 < coeffOf t1 c ux uy) := not_lt.2 hneg.le
          have h2 : 0 < coeffOf t2 c (-ux) (-uy) := by
            rw [hcoeff]; exact neg_pos.2 hneg
          simp only [if_neg h1, if_pos h2, hcut, updLower_negUpper, lowerGE_neg]
          by_cases hge :
              lowerGE tMin (updUpper tMax (rhsOf mx my dR c / coeffOf t1 c ux uy)) = true
          · rw [if_pos hge, if_pos hge]
          · rw [if_neg hge, if_neg hge]
            exact ih tMin (updUpper tMax (rhsOf mx my dR c / coeffOf t1 c ux uy))
        · have h1 : 0 < coeffOf t1 c ux uy := hpos
          have h2 : ¬(0 < coeffOf t2 c (-ux) (-uy)) := by
            rw [hcoeff]
            exact not_lt.2 (neg_nonpos.2 hpos.le)
          simp only [if_pos h1, if_neg h2, hcut, updUpper_negLower, lowerGE_neg]
          by_cases hge :
              lowerGE (updLower tMin (rhsOf mx my dR c / coeffOf t1 c ux uy)) tMax = true
          · rw [if_pos hge, if_pos hge]
          · rw [if_neg hge, if_neg hge]
            exact ih (updLower tMin (rhsOf mx my dR c / coeffOf t1 c ux uy)) tMax

/-- If some competitor `c` in the remaining list is not skipped, has a
near-parallel bisector (`|coeff| < EPS`) and `rhs ≥ 0`, the clipping loop
returns `false` from any interval state. -/
lemma clipTiles_parallel_block (t1 t2 c : Tile) (mx my ux uy dR : ℚ)
    (h1 : c.id ≠ t1.id) (h2 : c.id ≠ t2.id)
    (hpar : |coeffOf t1 c ux uy| < EPS) (hrhs : 0 ≤ rhsOf mx my dR c) :
    ∀ (l : List Tile), c ∈ l → ∀ (tMin tMax : Option ℚ),
    clipTiles t1 t2 mx my ux uy dR l tMin tMax = false := by
  intro l
  induction l with
  | nil => intro h; exact absurd h (List.not_mem_nil c)
  | cons d rest ih =>
    intro hmem tMin tMax
    rcases List.mem_cons.1 hmem with hdc | hdrest
    · subst hdc
      have hid : ¬(c.id = t1.id ∨ c.id = t2.id) := by
        intro h; rcases h with h | h
        · exact h1 h
        · exact h2 h
      simp only [clipTiles, if_neg hid, if_pos hpar, if_pos hrhs]
    · simp only [clipTiles]
      by_cases hid : d.id = t1.id ∨ d.id = t2.id
      · rw [if_pos hid]; exact ih hdrest tMin tMax
      · rw [if_neg hid]
        by_cases hp : |coeffOf t1 d ux uy| < EPS
        · rw [if_pos hp]
          by_cases hr : 0 ≤ rhsOf mx my dR d
          · rw [if_pos hr]
          · rw [if_neg hr]
            cases h : lowerGE tMin tMax
            · simp only [Bool.false_eq_true, if_false]
              exact ih hdrest tMin tMax
            · simp
        · rw [if_neg hp]
          by_cases hco : 0 < coeffOf t1 d ux uy
          · simp only [if_pos hco]
            cases h : lowerGE
                (updLower tMin (rhsOf mx my dR d / coeffOf t1 d ux uy)) tMax
            · simp only [Bool.false_eq_true, if_false]
              exact ih hdrest _ _
            · simp
          · simp only [if_neg hco]
            cases h : lowerGE tMin
                (updUpper tMax (rhsOf mx my dR d / coeffOf t1 d ux uy))
            · simp only [Bool.false_eq_true, if_false]
              exact ih hdrest _ _
            · simp

/-- A competitor with a near-parallel bisector and `rhs < 0` leaves the
interval untouched; as long as the loop has not already closed the interval,
deleting it from the competitor list does not change the verdict. -/
lemma clipTiles_parallel_noop (t1 t2 c : Tile) (mx my ux uy dR : ℚ)
    (hpar : |coeffOf t1 c ux uy| < EPS) (hrhs : ¬(0 ≤ rhsOf mx my dR c)) :
    ∀ (l₁ l₂ : List Tile) (tMin tMax : Option ℚ), lowerGE tMin tMax = false →
    clipTiles t1 t2 mx my ux uy dR (l₁ ++ c :: l₂) tMin tMax
      = clipTiles t1 t2 mx my ux uy dR (l₁ ++ l₂) tMin tMax := by
  intro l₁
  induction l₁ with
  | nil =>
    intro l₂ tMin tMax hopen
    simp only [List.nil_append, clipTiles]
    by_cases hid : c.id = t1.id ∨ c.id = t2.id
    · rw [if_pos hid]
    · rw [if_neg hid, if_pos hpar, if_neg hrhs, hopen]
      simp
  | cons d rest ih =>
    intro l₂ tMin tMax hopen
    simp only [List.cons_append, clipTiles]
    by_cases hid : d.id = t1.id ∨ d.id = t2.id
    · simp only [if_pos hid]
      exact ih l₂ tMin tMax hopen
    · simp only [if_neg hid]
      by_cases hp : |coeffOf t1 d ux uy| < EPS
      · simp only [if_pos hp]
        by_cases hr : 0 ≤ rhsOf mx my dR d
        · simp only [if_pos hr]
        · simp only [if_neg hr, hopen, Bool.false_eq_true, if_false]
          exact ih l₂ tMin tMax hopen
      · simp only [if_neg hp]
        by_cases hco : 0 < coeffOf t1 d ux uy
        · simp only [if_pos hco]
          cases h : lowerGE
              (updLower tMin (rhsOf mx my dR d / coeffOf t1 d ux uy)) tMax
          · simp only [Bool.false_eq_true, if_false]
            exact ih l₂ _ _ h
          · simp
        · simp only [if_neg hco]
          cases h : lowerGE tMin
              (updUpper tMax (rhsOf mx my dR d / coeffOf t1 d ux uy))
          · simp only [Bool.false_eq_true, if_false]
            exact ih l₂ _ _ h
          · simp

/-- C1 — The adjacency oracle is symmetric: for every tile set and every two
tiles `a` and `b` in it, `isAdjacentTiles a b` over that set returns the same
boolean as `isAdjacentTiles b a` over the same set. -/
theorem C1_adjacency_symmetric (tiles : List Tile) (a b : Tile)
    (ha : a ∈ tiles) (hb : b ∈ tiles) :
    isAdjacentTiles tiles a b = isAdjacentTiles tiles b a := by
  unfold isAdjacentTiles
  by_cases hid : a.id = b.id
  · rw [if_pos hid, if_pos hid.symm]
  · rw [if_neg hid, if_neg (fun h => hid h.symm)]
    have h1 : (b.posX + a.posX) / 2 = (a.posX + b.posX) / 2 := by ring
    have h2 : (b.posY + a.posY) / 2 = (a.posY + b.posY) / 2 := by ring
    have h3 : ((a.posX + b.posX) / 2 - b.posX) ^ 2 +
          ((a.posY + b.posY) / 2 - b.posY) ^ 2
        = ((a.posX + b.posX) / 2 - a.posX) ^ 2 +
          ((a.posY + b.posY) / 2 - a.posY) ^ 2 := by ring
    have h4 : -(a.posY - b.posY) = -(-(b.posY - a.posY)) := by ring
    have h5 : a.posX - b.posX = -(b.posX - a.posX) := by ring
    rw [h1, h2, h3, h4, h5]
    exact (clipTiles_swap a b _ _ _ _ _ rfl rfl tiles none none).symm

/-- Witness for C1 at a concrete three-tile set. -/
theorem C1_adjacency_symmetric_witness :
    mkGameTile 0 0 0 0 0 10 1 ∈
        [mkGameTile 0 0 0 0 0 10 1, mkGameTile 1 25 0 0 0 10 1,
          mkGameTile 2 (25/2) 50 0 0 10 1] ∧
    mkGameTile 1 25 0 0 0 10 1 ∈
        [mkGameTile 0 0 0 0 0 10 1, mkGameTile 1 25 0 0 0 10 1,
          mkGameTile 2 (25/2) 50 0 0 10 1] ∧
    isAdjacentTiles
        [mkGameTile 0 0 0 0 0 10 1, mkGameTile 1 25 0 0 0 10 1,
          mkGameTile 2 (25/2) 50 0 0 10 1]
        (mkGameTile 0 0 0 0 0 10 1) (mkGameTile 1 25 0 0 0 10 1)
      = isAdjacentTiles
        [mkGameTile 0 0 0 0 0 10 1, mkGameTile 1 25 0 0 0 10 1,
          mkGameTile 2 (25/2) 50 0 0 10 1]
        (mkGameTile 1 25 0 0 0 10 1) (mkGameTile 0 0 0 0 0 10 1) :=
  ⟨by decide, by decide,
    C1_adjacency_symmetric _ _ _ (by decide) (by decide)⟩

/-- C2 — Parallel-bisector tie-break: a competitor `c` whose clipping
coefficient is below the epsilon and whose right-hand side
`|M-a|^2 - |M-c|^2` is `≥ 0` forces `isAdjacentTiles a b` to return `false`
regardless of all remaining tiles; if that right-hand side is negative, `c`
imposes no constraint (removing it from the set leaves the verdict
unchanged). -/
theorem C2_parallel_tiebreak (a b c : Tile) (tiles l₁ l₂ : List Tile) :
    (c ∈ tiles → c.id ≠ a.id → c.id ≠ b.id →
      |adjCoeff a b c| < EPS → 0 ≤ adjRhs a b c →
      isAdjacentTiles tiles a b = false) ∧
    (|adjCoeff a b c| < EPS → adjRhs a b c < 0 →
      isAdjacentTiles (l₁ ++ c :: l₂) a b
        = isAdjacentTiles (l₁ ++ l₂) a b) := by
  constructor
  · intro hmem hca hcb hpar hrhs
    unfold isAdjacentTiles
    by_cases hid : a.id = b.id
    · rw [if_pos hid]
    · rw [if_neg hid]
      exact clipTiles_parallel_block a b c _ _ _ _ _ hca hcb hpar hrhs
        tiles hmem none none
  · intro hpar hrhs
    unfold isAdjacentTiles
    by_cases hid : a.id = b.id
    · rw [if_pos hid, if_pos hid]
    · rw [if_neg hid, if_neg hid]
      exact clipTiles_parallel_noop a b c _ _ _ _ _ hpar (not_le.2 hrhs)
        l₁ l₂ none none rfl

/-- Witness for C2: a collinear competitor between the pair blocks the edge;
a collinear competitor behind the pair changes nothing. -/
theorem C2_parallel_tiebreak_witness :
    isAdjacentTiles
        [mkGameTile 0 0 0 0 0 1 1, mkGameTile 1 2 0 0 0 1 1,
          mkGameTile 2 (3/2) 0 0 0 1 1]
        (mkGameTile 0 0 0 0 0 1 1) (mkGameTile 1 2 0 0 0 1 1) = false ∧
    isAdjacentTiles
        [mkGameTile 0 0 0 0 0 1 1, mkGameTile 1 2 0 0 0 1 1,
          mkGameTile 2 4 0 0 0 1 1]
        (mkGameTile 0 0 0 0 0 1 1) (mkGameTile 1 2 0 0 0 1 1)
      = isAdjacentTiles
        [mkGameTile 0 0 0 0 0 1 1, mkGameTile 1 2 0 0 0 1 1]
        (mkGameTile 0 0 0 0 0 1 1) (mkGameTile 1 2 0 0 0 1 1) :=
  ⟨(C2_parallel_tiebreak (mkGameTile 0 0 0 0 0 1 1) (mkGameTile 1 2 0 0 0 1 1)
      (mkGameTile 2 (3/2) 0 0 0 1 1)
      [mkGameTile 0 0 0 0 0 1 1, mkGameTile 1 2 0 0 0 1 1,
        mkGameTile 2 (3/2) 0 0 0 1 1] [] []).1
      (by with_unfolding_all decide) (by decide) (by decide)
      (by with_unfolding_all decide) (by with_unfolding_all decide),
   (C2_parallel_tiebreak (mkGameTile 0 0 0 0 0 1 1) (mkGameTile 1 2 0 0 0 1 1)
      (mkGameTile 2 4 0 0 0 1 1) []
      [mkGameTile 0 0 0 0 0 1 1, mkGameTile 1 2 0 0 0 1 1] []).2
      (by with_unfolding_all decide) (by with_unfolding_all decide)⟩

/-- C3 — Two-tile universe: with exactly two (identity-distinct) tiles in the
set, `isAdjacentTiles` on that pair returns `true`, whatever their
positions. -/
theorem C3_two_tile_universe (a b : Tile) (hab : a.id ≠ b.id) :
    isAdjacentTiles [a, b] a b = true := by
  unfold isAdjacentTiles
  rw [if_neg hab]
  simp [clipTiles]

/-- Witness for C3 at a concrete coincident-position pair. -/
theorem C3_two_tile_universe_witness :
    (mkGameTile 0 7 7 0 0 5 1).id ≠ (mkGameTile 1 7 7 0 0 9 2).id ∧
    isAdjacentTiles [mkGameTile 0 7 7 0 0 5 1, mkGameTile 1 7 7 0 0 9 2]
      (mkGameTile 0 7 7 0 0 5 1) (mkGameTile 1 7 7 0 0 9 2) = true :=
  ⟨by decide,
    C3_two_tile_universe (mkGameTile 0 7 7 0 0 5 1)
      (mkGameTile 1 7 7 0 0 9 2) (by decide)⟩

/-! ### Level state (`GameLevel`)

JavaScript `Map<ColorNumber, number>` is modelled as an association list in
insertion order; `get`/`set` act on the first matching key, as the runtime
does.  The selection chain stores tile identities (the source stores object
references into the tile list).  `random()` is modelled as an arbitrary
stream `stream : ℕ → ℚ` of draws together with a cursor `rng` counting the
draws made so far; `nextId` supplies fresh object identities for spawned
tiles. -/

/-- `Map.get` (first entry with the key). -/
def mapGet (m : List (ℕ × ℕ)) (k : ℕ) : Option ℕ :=
  match m with
  | [] => none
  | (k', v) :: rest => if k' = k then some v else mapGet rest k

/-- `Map.set`: update the entry with the key in place, else append. -/
def mapSet (m : List (ℕ × ℕ)) (k v : ℕ) : List (ℕ × ℕ) :=
  match m with
  | [] => [(k, v)]
  | (k', v') :: rest =>
    if k' = k then (k, v) :: rest else (k', v') :: mapSet rest k v

/-- The exact IEEE-754 double value of `Math.PI`
(`884279719003555 * 2^-48`). -/
def mathPI : ℚ := 884279719003555 / 281474976710656

/-- Viewport and tile-generator constants.  `minRadius`/`maxRadius` stand for
`TileGenerator.getRandomRadius`'s `diag * 0.025` and `diag * 0.045`, kept
abstract because the screen diagonal `sqrt(width² + height²)` is irrational;
the claims under study depend only on the generated radii, not on the
diagonal. -/
structure Config where
  width : ℚ
  height : ℚ
  minRadius : ℚ
  maxRadius : ℚ

/-- The mutable state of a `GameLevel`. -/
structure GameLevel where
  tiles : List Tile
  winTiles : List (ℕ × ℕ)
  collectedTiles : List (ℕ × ℕ)
  selectedTiles : List ℕ
  areaDebt : ℚ
  rng : ℕ
  nextId : ℕ
deriving Repr, DecidableEq

/-- Dereference a stored tile identity against the tile list. -/
def findById (tiles : List Tile) (tid : ℕ) : Option Tile :=
  tiles.find? (fun t => t.id = tid)

/-- `tile.isHighlighted = b` for the store entry with identity `tid`. -/
def setHighlightById (tiles : List Tile) (tid : ℕ) (b : Bool) : List Tile :=
  tiles.map (fun t => if t.id = tid then { t with isHighlighted := b } else t)

/-- `tiles.splice(tiles.indexOf(tile), 1)`: drop the first entry with the
identity, keep the list unchanged when it is absent (`indexOf === -1`). -/
def removeFirstById (tiles : List Tile) (tid : ℕ) : List Tile :=
  match tiles with
  | [] => []
  | t :: rest => if t.id = tid then rest else t :: removeFirstById rest tid

/-- Unhighlight a batch of store entries (the backtrack loop's net effect on
the tile store). -/
def unhighlightIds (tiles : List Tile) (ids : List ℕ) : List Tile :=
  ids.foldl (fun ts i => setHighlightById ts i false) tiles

/-- `GameLevel.addTile(size, x?, y?)`: abort when there are no win colors;
otherwise draw a color index and a random top-edge x (both draws always
happen), build a `GameTile` and push it.  `Math.floor(rand * n)` is `⌊·⌋`
clamped to `ℕ`; an out-of-range index (impossible for draws in `[0,1)`) falls
back to color `0`. -/
def addTile (stream : ℕ → ℚ) (cfg : Config) (size : ℚ)
    (x? y? : Option ℚ) (s : GameLevel) : GameLevel :=
  let colorIDs := s.winTiles.map Prod.fst
  if colorIDs.length = 0 then s
  else
    let rand := stream s.rng
    let colorIndex := (rand * colorIDs.length).floor.toNat
    let colorID := colorIDs.getD colorIndex 0
    let randX := ((stream (s.rng + 1)) * cfg.width).floor
    let px := match x? with | some x => x | none => (randX : ℚ)
    let py := match y? with | some y => y | none => -cfg.height
    { s with
        tiles := s.tiles ++ [mkGameTile s.nextId px py 0 0 size colorID],
        rng := s.rng + 2,
        nextId := s.nextId + 1 }

/-- The radius drawn by `TileGenerator.getRandomRadius(this.random)` at the
current stream position. -/
def refillRadius (stream : ℕ → ℚ) (cfg : Config) (s : GameLevel) : ℚ :=
  cfg.minRadius + stream s.rng * (cfg.maxRadius - cfg.minRadius)

/-- One iteration of the `fillDebt` while-loop: draw a radius, add a tile,
subtract the tile's circle area from the debt. -/
def refillStep (stream : ℕ → ℚ) (cfg : Config) (s : GameLevel) : GameLevel :=
  let r := refillRadius stream cfg s
  let s1 := addTile stream cfg r none none { s with rng := s.rng + 1 }
  { s1 with areaDebt := s1.areaDebt - mathPI * r * r }

/-- `GameLevel.fillDebt`: loop while `areaDebt > 0`.  The source's `while`
has no bound; `fuel` caps the modelled iteration count and `none` reports
that the cap was hit before the debt was paid. -/
def fillDebt (stream : ℕ → ℚ) (cfg : Config) :
    ℕ → GameLevel → Option GameLevel
  | 0, s => if 0 < s.areaDebt then none else some s
  | fuel + 1, s =>
    if 0 < s.areaDebt then fillDebt stream cfg fuel (refillStep stream cfg s)
    else some s

/-- `Array.indexOf` on the chain of stored identities (`none` for `-1`). -/
def indexOfId (ids : List ℕ) (tid : ℕ) : Option ℕ :=
  match ids with
  | [] => none
  | i :: rest => if i = tid then some 0 else (indexOfId rest tid).map (· + 1)

/-- `GameLevel.processTileSelection(prev, curr)`: ignore a same-tile move, a
color mismatch or non-adjacency; append an unseen tile (highlighting it);
re-entering a chained tile backtracks, popping and unhighlighting every entry
after it. -/
def processTileSelection (prev curr : Tile) (s : GameLevel) : GameLevel :=
  if prev.id = curr.id then s
  else if !(isSameColor prev curr) || !(isAdjacentTiles s.tiles prev curr) then s
  else
    match indexOfId s.selectedTiles curr.id with
    | none =>
      { s with selectedTiles := s.selectedTiles ++ [curr.id],
               tiles := setHighlightById s.tiles curr.id true }
    | some index =>
      { s with selectedTiles := s.selectedTiles.take (index + 1),
               tiles := unhighlightIds s.tiles (s.selectedTiles.drop (index + 1)) }

/-- The body of `finalizeConnection`'s removal loop for one chained tile:
unhighlight it, splice it out of the store, add its circle area to the debt
and bump its color's collected count.  A chain identity that no longer
resolves in the store is a no-op (unreachable while chains are built from
store members). -/
def finalizeStep (s : GameLevel) (tid : ℕ) : GameLevel :=
  match findById s.tiles tid with
  | some t =>
    { s with
        tiles := removeFirstById (setHighlightById s.tiles tid false) tid,
        areaDebt := s.areaDebt + mathPI * t.size * t.size,
        collectedTiles := mapSet s.collectedTiles t.colorID
          ((mapGet s.collectedTiles t.colorID).getD 0 + 1) }
  | none => s

/-- The removal half of `finalizeConnection` for a chain of length ≥ 2:
process every chained tile, then clear the chain. -/
def removePhase (s : GameLevel) : GameLevel :=
  { s.selectedTiles.foldl finalizeStep s with selectedTiles := [] }

/-- `GameLevel.finalizeConnection()`: a 1-chain is deselected; a chain of
length ≥ 2 is removed, collected and followed by one refill pass; an empty
chain is a no-op. -/
def finalizeConnection (stream : ℕ → ℚ) (cfg : Config) (fuel : ℕ)
    (s : GameLevel) : Option GameLevel :=
  if s.selectedTiles.length = 1 then
    some { s with
            tiles := setHighlightById s.tiles (s.selectedTiles.headD 0) false,
            selectedTiles := [] }
  else if 1 < s.selectedTiles.length then
    fillDebt stream cfg fuel (removePhase s)
  else some s

/-- `GameLevel.isGameWon()`: false as soon as one required color is missing
from `collectedTiles` or under-collected, else true. -/
def isGameWon (s : GameLevel) : Bool :=
  s.winTiles.all (fun p =>
    match mapGet s.collectedTiles p.1 with
    | none => false
    | some k => decide (p.2 ≤ k))

/-- The chained tiles, dereferenced against the current store. -/
def chainTiles (s : GameLevel) : List Tile :=
  s.selectedTiles.filterMap (findById s.tiles)

/-! ### Map and store lemmas -/

lemma mapGet_mapSet_self (m : List (ℕ × ℕ)) (k v : ℕ) :
    mapGet (mapSet m k v) k = some v := by
  induction m with
  | nil => simp [mapGet, mapSet]
  | cons p rest ih =>
    obtain ⟨k', v'⟩ := p
    by_cases h : k' = k
    · subst h; simp [mapGet, mapSet]
    · simp only [mapGet, mapSet, if_neg h]
      exact ih

lemma mapGet_mapSet_other (m : List (ℕ × ℕ)) (k v k' : ℕ) (h : k' ≠ k) :
    mapGet (mapSet m k v) k' = mapGet m k' := by
  induction m with
  | nil => simp [mapGet, mapSet, Ne.symm h]
  | cons p rest ih =>
    obtain ⟨k'', v''⟩ := p
    by_cases hk : k'' = k
    · subst hk
      simp [mapGet, mapSet, Ne.symm h]
    · simp only [mapGet, mapSet, if_neg hk]
      by_cases hk' : k'' = k'
      · simp [hk']
      · simp only [if_neg hk']
        exact ih

lemma findById_eq_none_iff (tiles : List Tile) (tid : ℕ) :
    findById tiles tid = none ↔ ∀ t ∈ tiles, t.id ≠ tid := by
  simp [findById, List.find?_eq_none]

lemma findById_mem_nodup (tiles : List Tile) (t : Tile)
    (hnd : (tiles.map Tile.id).Nodup) (hmem : t ∈ tiles) :
    findById tiles t.id = some t := by
  induction tiles with
  | nil => cases hmem
  | cons a rest ih =>
    rw [List.map_cons, List.nodup_cons] at hnd
    rcases List.mem_cons.1 hmem with rfl | hmem'
    · rw [findById, List.find?_cons_of_pos _ (by simp)]
    · have hne : ¬(a.id = t.id) := fun h =>
        hnd.1 (h ▸ List.mem_map_of_mem Tile.id hmem')
      rw [findById, List.find?_cons_of_neg _ (by simp [hne])]
      exact ih hnd.2 hmem'

lemma findById_append_none (l₁ l₂ : List Tile) (tid : ℕ)
    (h : findById l₁ tid = none) :
    findById (l₁ ++ l₂) tid = findById l₂ tid := by
  induction l₁ with
  | nil => simp
  | cons a rest ih =>
    rw [findById, List.find?] at h
    rcases ha : (decide (a.id = tid)) with _ | _
    · rw [ha] at h
      rw [List.cons_append, findById, List.find?, ha]
      exact ih h
    · rw [ha] at h
      cases h

lemma setHighlightById_map_id (tiles : List Tile) (tid : ℕ) (b : Bool) :
    (setHighlightById tiles tid b).map Tile.id = tiles.map Tile.id := by
  induction tiles with
  | nil => rfl
  | cons a rest ih =>
    simp only [setHighlightById, List.map_cons] at ih ⊢
    rw [ih]
    congr 1
    by_cases h : a.id = tid
    · simp [h]
    · simp [h]

lemma removeFirstById_map_id (tiles : List Tile) (tid : ℕ) :
    (removeFirstById tiles tid).map Tile.id = (tiles.map Tile.id).erase tid := by
  induction tiles with
  | nil => rfl
  | cons a rest ih =>
    by_cases h : a.id = tid
    · simp [removeFirstById, h, List.erase_cons]
    · simp [removeFirstById, h, List.erase_cons, ih]

lemma findById_setHighlight_other (tiles : List Tile) (tid : ℕ) (b : Bool)
    (tid' : ℕ) (h : tid' ≠ tid) :
    findById (setHighlightById tiles tid b) tid' = findById tiles tid' := by
  induction tiles with
  | nil => rfl
  | cons a rest ih =>
    by_cases ha : a.id = tid
    · have ha' : ¬(a.id = tid') := fun hh => h (hh.symm.trans ha)
      simp only [setHighlightById, List.map_cons] at ih ⊢
      rw [if_pos ha, findById, List.find?_cons_of_neg _ (by simp [ha']),
        findById, List.find?_cons_of_neg _ (by simp [ha'])]
      exact ih
    · simp only [setHighlightById, List.map_cons] at ih ⊢
      rw [if_neg ha]
      by_cases ha' : a.id = tid'
      · rw [findById, List.find?_cons_of_pos _ (by simp [ha']),
          findById, List.find?_cons_of_pos _ (by simp [ha'])]
      · rw [findById, List.find?_cons_of_neg _ (by simp [ha']),
          findById, List.find?_cons_of_neg _ (by simp [ha'])]
        exact ih

lemma findById_remove_other (tiles : List Tile) (tid tid' : ℕ) (h : tid' ≠ tid) :
    findById (removeFirstById tiles tid) tid' = findById tiles tid' := by
  induction tiles with
  | nil => rfl
  | cons a rest ih =>
    by_cases ha : a.id = tid
    · have ha' : ¬(a.id = tid') := fun hh => h (hh.symm.trans ha)
      rw [removeFirstById, if_pos ha, findById, findById,
        List.find?_cons_of_neg _ (by simp [ha'])]
    · rw [removeFirstById, if_neg ha]
      by_cases ha' : a.id = tid'
      · rw [findById, List.find?_cons_of_pos _ (by simp [ha']),
          findById, List.find?_cons_of_pos _ (by simp [ha'])]
      · rw [findById, List.find?_cons_of_neg _ (by simp [ha']),
          findById, List.find?_cons_of_neg _ (by simp [ha'])]
        exact ih

lemma findById_remove_self (tiles : List Tile) (tid : ℕ)
    (hnd : (tiles.map Tile.id).Nodup) :
    findById (removeFirstById tiles tid) tid = none := by
  induction tiles with
  | nil => rfl
  | cons a rest ih =>
    rw [List.map_cons, List.nodup_cons] at hnd
    by_cases ha : a.id = tid
    · rw [removeFirstById, if_pos ha]
      rw [findById_eq_none_iff]
      intro t ht hta
      exact hnd.1 (ha ▸ hta ▸ List.mem_map_of_mem Tile.id ht)
    · rw [removeFirstById, if_neg ha, findById,
        List.find?_cons_of_neg _ (by simp [ha])]
      exact ih hnd.2

lemma filterMap_congr_list {α β : Type} (l : List α) (f g : α → Option β)
    (h : ∀ x ∈ l, f x = g x) : l.filterMap f = l.filterMap g := by
  induction l with
  | nil => rfl
  | cons a rest ih =>
    rw [List.filterMap_cons, List.filterMap_cons,
      h a (List.mem_cons_self a rest),
      ih (fun x hx => h x (List.mem_cons_of_mem a hx))]

lemma mapGet_incr (m : List (ℕ × ℕ)) (k c : ℕ) :
    (mapGet (mapSet m k ((mapGet m k).getD 0 + 1)) c).getD 0
      = (mapGet m c).getD 0 + (if k = c then 1 else 0) := by
  by_cases h : k = c
  · subst h
    rw [mapGet_mapSet_self, if_pos rfl]
    rfl
  · rw [mapGet_mapSet_other _ _ _ _ (fun hh => h hh.symm), if_neg h]
    omega

/-- Everything one pass of the removal-loop body does when the chained
identity resolves to tile `t` in a duplicate-free store. -/
lemma finalizeStep_spec (s : GameLevel) (tid : ℕ) (t : Tile)
    (hnd : (s.tiles.map Tile.id).Nodup) (hfind : findById s.tiles tid = some t) :
    ((finalizeStep s tid).tiles.map Tile.id) = (s.tiles.map Tile.id).erase tid ∧
    findById (finalizeStep s tid).tiles tid = none ∧
    (∀ tid', tid' ≠ tid →
      findById (finalizeStep s tid).tiles tid' = findById s.tiles tid') ∧
    (finalizeStep s tid).winTiles = s.winTiles ∧
    (finalizeStep s tid).selectedTiles = s.selectedTiles ∧
    (finalizeStep s tid).rng = s.rng ∧
    (finalizeStep s tid).nextId = s.nextId ∧
    (finalizeStep s tid).areaDebt = s.areaDebt + mathPI * t.size * t.size ∧
    (∀ c, (mapGet (finalizeStep s tid).collectedTiles c).getD 0
        = (mapGet s.collectedTiles c).getD 0
          + (if t.colorID = c then 1 else 0)) := by
  simp only [finalizeStep, hfind]
  refine ⟨?_, ?_, ?_, trivial, trivial, trivial, trivial, trivial, ?_⟩
  · rw [removeFirstById_map_id, setHighlightById_map_id]
  · apply findById_remove_self
    rw [setHighlightById_map_id]
    exact hnd
  · intro tid' hne
    rw [findById_remove_other _ _ _ hne, findById_setHighlight_other _ _ _ _ hne]
  · intro c
    exact mapGet_incr s.collectedTiles t.colorID c

/-- Cumulative effect of the whole removal loop over a duplicate-free chain
of identities that all resolve in a duplicate-free store: chained tiles are
gone, other lookups are untouched, the debt grows by the total chained
circle area and each color's collected count by the number of chained tiles
of that color. -/
lemma foldl_finalizeStep_spec :
    ∀ (ids : List ℕ) (s : GameLevel),
    (s.tiles.map Tile.id).Nodup → ids.Nodup →
    (∀ tid ∈ ids, (findById s.tiles tid).isSome) →
    ((ids.foldl finalizeStep s).tiles.map Tile.id).Nodup ∧
    (ids.foldl finalizeStep s).winTiles = s.winTiles ∧
    (ids.foldl finalizeStep s).selectedTiles = s.selectedTiles ∧
    (ids.foldl finalizeStep s).rng = s.rng ∧
    (ids.foldl finalizeStep s).nextId = s.nextId ∧
    (∀ tid ∈ ids, findById (ids.foldl finalizeStep s).tiles tid = none) ∧
    (∀ tid, tid ∉ ids →
      findById (ids.foldl finalizeStep s).tiles tid = findById s.tiles tid) ∧
    (ids.foldl finalizeStep s).areaDebt = s.areaDebt +
      ((ids.filterMap (findById s.tiles)).map
        (fun t => mathPI * t.size * t.size)).sum ∧
    (∀ c, (mapGet (ids.foldl finalizeStep s).collectedTiles c).getD 0
        = (mapGet s.collectedTiles c).getD 0
          + ((ids.filterMap (findById s.tiles)).filter
              (fun t => t.colorID = c)).length) := by
  intro ids
  induction ids with
  | nil =>
    intro s hnd _ _
    exact ⟨hnd, rfl, rfl, rfl, rfl, by simp, fun _ _ => rfl, by simp,
      fun c => by simp⟩
  | cons tid rest ih =>
    intro s hnd hidsnd hsome
    obtain ⟨t, hfind⟩ := Option.isSome_iff_exists.1
      (hsome tid (List.mem_cons_self tid rest))
    obtain ⟨hmapid, hnone, hother, hwin, hsel, hrng, hnext, hdebt, hcoll⟩ :=
      finalizeStep_spec s tid t hnd hfind
    have htid_rest : tid ∉ rest := (List.nodup_cons.1 hidsnd).1
    have hrestnd : rest.Nodup := (List.nodup_cons.1 hidsnd).2
    have hnd1 : ((finalizeStep s tid).tiles.map Tile.id).Nodup := by
      rw [hmapid]; exact hnd.erase tid
    have hrest_lookup : ∀ tid' ∈ rest,
        findById (finalizeStep s tid).tiles tid' = findById s.tiles tid' := by
      intro tid' hmem
      exact hother tid' (fun hh => htid_rest (hh ▸ hmem))
    have hrest_some : ∀ tid' ∈ rest,
        (findById (finalizeStep s tid).tiles tid').isSome := by
      intro tid' hmem
      rw [hrest_lookup tid' hmem]
      exact hsome tid' (List.mem_cons_of_mem tid hmem)
    obtain ⟨ind, iwin, isel, irng, inext, imem, iother, idebt, icoll⟩ :=
      ih (finalizeStep s tid) hnd1 hrestnd hrest_some
    have hfm : rest.filterMap (findById (finalizeStep s tid).tiles)
        = rest.filterMap (findById s.tiles) :=
      filterMap_congr_list rest _ _ hrest_lookup
    rw [List.foldl_cons]
    refine ⟨ind, iwin.trans hwin, isel.trans hsel, irng.trans hrng,
      inext.trans hnext, ?_, ?_, ?_, ?_⟩
    · intro tid' hmem
      rcases List.mem_cons.1 hmem with rfl | hmem'
      · rw [iother tid' htid_rest]
        exact hnone
      · exact imem tid' hmem'
    · intro tid' hnot
      have h1 : tid' ∉ rest := fun hh => hnot (List.mem_cons_of_mem tid hh)
      have h2 : tid' ≠ tid := fun hh => hnot (hh ▸ List.mem_cons_self tid rest)
      rw [iother tid' h1, hother tid' h2]
    · rw [idebt, hfm, hdebt, List.filterMap_cons, hfind, List.map_cons,
        List.sum_cons]
      ring
    · intro c
      rw [icoll c, hfm, hcoll c, List.filterMap_cons, hfind, List.filter_cons]
      by_cases hc : t.colorID = c
      · simp [hc]
        omega
      · simp [hc]

/-! ### Refill lemmas -/

/-- `addTile` never touches the win/collected/selected state or the debt,
only appends a tile carrying the fresh identity, and bumps the cursor. -/
lemma addTile_spec (stream : ℕ → ℚ) (cfg : Config) (size : ℚ)
    (x? y? : Option ℚ) (s : GameLevel) :
    (addTile stream cfg size x? y? s).winTiles = s.winTiles ∧
    (addTile stream cfg size x? y? s).collectedTiles = s.collectedTiles ∧
    (addTile stream cfg size x? y? s).selectedTiles = s.selectedTiles ∧
    (addTile stream cfg size x? y? s).areaDebt = s.areaDebt ∧
    s.nextId ≤ (addTile stream cfg size x? y? s).nextId ∧
    (∀ tid, tid < s.nextId → findById s.tiles tid = none →
      findById (addTile stream cfg size x? y? s).tiles tid = none) ∧
    (s.winTiles ≠ [] →
      (addTile stream cfg size x? y? s).tiles.length = s.tiles.length + 1) := by
  simp only [addTile]
  by_cases h : (s.winTiles.map Prod.fst).length = 0
  · rw [if_pos h]
    refine ⟨rfl, rfl, rfl, rfl, le_refl _, fun _ _ hn => hn, fun hne => ?_⟩
    rw [List.length_map] at h
    exact absurd (List.length_eq_zero.1 h) hne
  · rw [if_neg h]
    refine ⟨rfl, rfl, rfl, rfl, Nat.le_succ _, ?_, fun _ => ?_⟩
    · intro tid hlt hnone
      rw [findById_append_none _ _ _ hnone, findById,
        List.find?_cons_of_neg _ (by simp [mkGameTile]; omega), List.find?_nil]
    · simp

/-- One refill iteration: inventory state untouched, debt decreased by the
drawn tile's circle area, fresh identities stay fresh. -/
lemma refillStep_spec (stream : ℕ → ℚ) (cfg : Config) (s : GameLevel) :
    (refillStep stream cfg s).winTiles = s.winTiles ∧
    (refillStep stream cfg s).collectedTiles = s.collectedTiles ∧
    (refillStep stream cfg s).selectedTiles = s.selectedTiles ∧
    (refillStep stream cfg s).areaDebt = s.areaDebt -
      mathPI * refillRadius stream cfg s * refillRadius stream cfg s ∧
    s.nextId ≤ (refillStep stream cfg s).nextId ∧
    (∀ tid, tid < s.nextId → findById s.tiles tid = none →
      findById (refillStep stream cfg s).tiles tid = none) ∧
    (s.winTiles ≠ [] →
      (refillStep stream cfg s).tiles.length = s.tiles.length + 1) := by
  obtain ⟨h1, h2, h3, h4, h5, h6, h7⟩ := addTile_spec stream cfg
    (refillRadius stream cfg s) none none { s with rng := s.rng + 1 }
  simp only [refillStep]
  exact ⟨h1, h2, h3, by rw [h4], h5, h6, h7⟩

/-- Whenever the refill loop returns, the inventory state is unchanged and
absent fresh identities stay absent. -/
lemma fillDebt_preserves (stream : ℕ → ℚ) (cfg : Config) :
    ∀ (fuel : ℕ) (s s' : GameLevel), fillDebt stream cfg fuel s = some s' →
    s'.winTiles = s.winTiles ∧
    s'.collectedTiles = s.collectedTiles ∧
    s'.selectedTiles = s.selectedTiles ∧
    s.nextId ≤ s'.nextId ∧
    (∀ tid, tid < s.nextId → findById s.tiles tid = none →
      findById s'.tiles tid = none) := by
  intro fuel
  induction fuel with
  | zero =>
    intro s s' h
    rw [fillDebt] at h
    by_cases hd : 0 < s.areaDebt
    · rw [if_pos hd] at h; cases h
    · rw [if_neg hd] at h
      obtain rfl := Option.some.inj h
      exact ⟨rfl, rfl, rfl, le_refl _, fun _ _ hn => hn⟩
  | succ n ih =>
    intro s s' h
    rw [fillDebt] at h
    by_cases hd : 0 < s.areaDebt
    · rw [if_pos hd] at h
      obtain ⟨i1, i2, i3, i4, i5⟩ := ih _ _ h
      obtain ⟨r1, r2, r3, r4, r5, r6, r7⟩ := refillStep_spec stream cfg s
      exact ⟨i1.trans r1, i2.trans r2, i3.trans r3, r5.trans i4,
        fun tid hlt hnone => i5 tid (lt_of_lt_of_le hlt r5) (r6 tid hlt hnone)⟩
    · rw [if_neg hd] at h
      obtain rfl := Option.some.inj h
      exact ⟨rfl, rfl, rfl, le_refl _, fun _ _ hn => hn⟩

/-- Whenever the refill loop returns, the debt has been driven to `≤ 0`. -/
lemma fillDebt_some_nonpos (stream : ℕ → ℚ) (cfg : Config) :
    ∀ (fuel : ℕ) (s s' : GameLevel),
    fillDebt stream cfg fuel s = some s' → s'.areaDebt ≤ 0 := by
  intro fuel
  induction fuel with
  | zero =>
    intro s s' h
    rw [fillDebt] at h
    by_cases hd : 0 < s.areaDebt
    · rw [if_pos hd] at h; cases h
    · rw [if_neg hd] at h
      obtain rfl := Option.some.inj h
      exact le_of_not_lt hd
  | succ n ih =>
    intro s s' h
    rw [fillDebt] at h
    by_cases hd : 0 < s.areaDebt
    · rw [if_pos hd] at h
      exact ih _ _ h
    · rw [if_neg hd] at h
      obtain rfl := Option.some.inj h
      exact le_of_not_lt hd

lemma findById_setHighlight_self (tiles : List Tile) (tid : ℕ) (b : Bool) :
    findById (setHighlightById tiles tid b) tid
      = (findById tiles tid).map (fun t => { t with isHighlighted := b }) := by
  induction tiles with
  | nil => rfl
  | cons a rest ih =>
    by_cases ha : a.id = tid
    · simp only [setHighlightById, List.map_cons, if_pos ha]
      rw [findById, List.find?_cons_of_pos _ (by simp [ha]),
        findById, List.find?_cons_of_pos _ (by simp [ha])]
      rfl
    · simp only [setHighlightById, List.map_cons, if_neg ha]
      rw [findById, List.find?_cons_of_neg _ (by simp [ha]),
        findById, List.find?_cons_of_neg _ (by simp [ha])]
      exact ih

/-- C4 — Backtrack: with a chain `[A, B, C]` of distinct same-color tiles and
`C`, `B` same-colored and Voronoi-adjacent in the current set,
`processTileSelection(C, B)` truncates the chain to `[A, B]` and clears `C`'s
highlight, leaving `A` and `B` (still highlighted when they were) in the
chain and in the store. -/
theorem C4_backtrack (s : GameLevel) (A B C : Tile)
    (hnd : (s.tiles.map Tile.id).Nodup)
    (hchain : s.selectedTiles = [A.id, B.id, C.id])
    (hmemA : A ∈ s.tiles) (hmemB : B ∈ s.tiles) (hmemC : C ∈ s.tiles)
    (hAB : A.id ≠ B.id) (hAC : A.id ≠ C.id) (hBC : B.id ≠ C.id)
    (hcolor : C.colorID = B.colorID)
    (hadj : isAdjacentTiles s.tiles C B = true) :
    processTileSelection C B s
      = { s with tiles := setHighlightById s.tiles C.id false,
                 selectedTiles := [A.id, B.id] } ∧
    findById (setHighlightById s.tiles C.id false) A.id = some A ∧
    findById (setHighlightById s.tiles C.id false) B.id = some B ∧
    findById (setHighlightById s.tiles C.id false) C.id
      = some { C with isHighlighted := false } := by
  refine ⟨?_, ?_, ?_, ?_⟩
  · rw [processTileSelection, if_neg (fun h => hBC h.symm)]
    have hcond : (!(isSameColor C B) || !(isAdjacentTiles s.tiles C B)) = false := by
      rw [hadj, isSameColor, decide_eq_true hcolor]
      rfl
    rw [if_neg (by rw [hcond]; simp)]
    have hidx : indexOfId s.selectedTiles B.id = some 1 := by
      rw [hchain, indexOfId, if_neg (fun h => hAB h), indexOfId, if_pos rfl]
      rfl
    rw [hidx, hchain]
    rfl
  · rw [findById_setHighlight_other _ _ _ _ hAC]
    exact findById_mem_nodup s.tiles A hnd hmemA
  · rw [findById_setHighlight_other _ _ _ _ hBC]
    exact findById_mem_nodup s.tiles B hnd hmemB
  · rw [findById_setHighlight_self,
      findById_mem_nodup s.tiles C hnd hmemC]
    rfl

/-- Witness for C4 at a concrete collinear three-tile chain. -/
theorem C4_backtrack_witness :
    processTileSelection (mkGameTile 2 4 0 0 0 1 5 true)
        (mkGameTile 1 2 0 0 0 1 5 true)
        { tiles := [mkGameTile 0 0 0 0 0 1 5 true,
            mkGameTile 1 2 0 0 0 1 5 true, mkGameTile 2 4 0 0 0 1 5 true],
          winTiles := [(5, 1)], collectedTiles := [],
          selectedTiles := [0, 1, 2], areaDebt := 0, rng := 0, nextId := 3 }
      = { tiles := setHighlightById
            [mkGameTile 0 0 0 0 0 1 5 true, mkGameTile 1 2 0 0 0 1 5 true,
              mkGameTile 2 4 0 0 0 1 5 true] 2 false,
          winTiles := [(5, 1)], collectedTiles := [],
          selectedTiles := [0, 1], areaDebt := 0, rng := 0, nextId := 3 } :=
  (C4_backtrack _ (mkGameTile 0 0 0 0 0 1 5 true)
    (mkGameTile 1 2 0 0 0 1 5 true) (mkGameTile 2 4 0 0 0 1 5 true)
    (by decide) rfl (by decide) (by decide) (by decide)
    (by decide) (by decide) (by decide) (by decide)
    (by with_unfolding_all decide)).1

/-- C5 — Finalize semantics: an empty chain is a no-op; a 1-chain clears that
tile's highlight and empties the chain, leaving the tile list (up to that
flag) and the collected counts untouched; a chain of length ≥ 2 removes every
chained tile from the tile list, empties the chain, and bumps each color's
collected count by the number of removed chained tiles of that color. -/
theorem C5_finalize_semantics (stream : ℕ → ℚ) (cfg : Config) (fuel : ℕ)
    (s : GameLevel)
    (hnd : (s.tiles.map Tile.id).Nodup)
    (hchainnd : s.selectedTiles.Nodup)
    (hsome : ∀ tid ∈ s.selectedTiles, (findById s.tiles tid).isSome)
    (hfresh : ∀ t ∈ s.tiles, t.id < s.nextId) :
    (s.selectedTiles = [] → finalizeConnection stream cfg fuel s = some s) ∧
    (∀ tid, s.selectedTiles = [tid] →
      finalizeConnection stream cfg fuel s
        = some { s with tiles := setHighlightById s.tiles tid false,
                        selectedTiles := [] }) ∧
    (2 ≤ s.selectedTiles.length → ∀ s',
      finalizeConnection stream cfg fuel s = some s' →
      s'.selectedTiles = [] ∧
      (∀ tid ∈ s.selectedTiles, findById s'.tiles tid = none) ∧
      (∀ c, (mapGet s'.collectedTiles c).getD 0
          = (mapGet s.collectedTiles c).getD 0
            + ((chainTiles s).filter (fun t => t.colorID = c)).length)) := by
  refine ⟨?_, ?_, ?_⟩
  · intro hchain
    rw [finalizeConnection, hchain]
    rfl
  · intro tid hchain
    rw [finalizeConnection, hchain]
    rfl
  · intro hlen s' hfin
    have hne1 : ¬(s.selectedTiles.length = 1) := by omega
    have hgt1 : 1 < s.selectedTiles.length := by omega
    rw [finalizeConnection, if_neg hne1, if_pos hgt1] at hfin
    obtain ⟨_, fwin, fsel, _, fnext, fmem, _, _, fcoll⟩ :=
      foldl_finalizeStep_spec s.selectedTiles s hnd hchainnd hsome
    obtain ⟨p1, p2, p3, p4, p5⟩ := fillDebt_preserves stream cfg fuel _ _ hfin
    have htidlt : ∀ tid ∈ s.selectedTiles, tid < s.nextId := by
      intro tid hmem
      obtain ⟨t, ht⟩ := Option.isSome_iff_exists.1 (hsome tid hmem)
      have hmemt : t ∈ s.tiles := List.mem_of_find?_eq_some ht
      have : t.id = tid := by
        have := List.find?_some ht
        simpa using this
      exact this ▸ hfresh t hmemt
    refine ⟨?_, ?_, ?_⟩
    · rw [p3]
      rfl
    · intro tid hmem
      refine p5 tid ?_ ?_
      · show tid < (removePhase s).nextId
        simp only [removePhase]
        rw [fnext]
        exact htidlt tid hmem
      · show findById (removePhase s).tiles tid = none
        simp only [removePhase]
        exact fmem tid hmem
    · intro c
      rw [p2]
      exact fcoll c

/-- Witness for C5: finalizing a concrete singleton chain deselects it. -/
theorem C5_finalize_semantics_witness :
    finalizeConnection (fun _ => 0)
        { width := 100, height := 100, minRadius := 1, maxRadius := 1 } 3
        { tiles := [mkGameTile 0 5 5 0 0 2 1 true],
          winTiles := [(1, 1)], collectedTiles := [], selectedTiles := [0],
          areaDebt := 0, rng := 0, nextId := 1 }
      = some
        { tiles := setHighlightById [mkGameTile 0 5 5 0 0 2 1 true] 0 false,
          winTiles := [(1, 1)], collectedTiles := [], selectedTiles := [],
          areaDebt := 0, rng := 0, nextId := 1 } :=
  (C5_finalize_semantics (fun _ => 0)
    { width := 100, height := 100, minRadius := 1, maxRadius := 1 } 3 _
    (by decide) (by decide) (by decide) (by decide)).2.1 0 rfl

/-- C6 — Area debt conservation: committing a chain of length ≥ 2 raises the
debt by exactly the chained tiles' total circle area before the refill; the
refill pass invoked by `finalizeConnection` leaves the debt `≤ 0` whenever it
returns; and while the debt is positive the refill loop runs one iteration
that adds a tile (given a nonempty color set) and subtracts its circle area
from the debt. -/
theorem C6_area_debt (stream : ℕ → ℚ) (cfg : Config) (fuel : ℕ)
    (s : GameLevel)
    (hnd : (s.tiles.map Tile.id).Nodup)
    (hchainnd : s.selectedTiles.Nodup)
    (hsome : ∀ tid ∈ s.selectedTiles, (findById s.tiles tid).isSome)
    (hlen : 2 ≤ s.selectedTiles.length) :
    (removePhase s).areaDebt = s.areaDebt +
      ((chainTiles s).map (fun t => mathPI * t.size * t.size)).sum ∧
    (∀ s', finalizeConnection stream cfg fuel s = some s' →
      s'.areaDebt ≤ 0) ∧
    (∀ (s₀ : GameLevel) (n : ℕ), 0 < s₀.areaDebt →
      fillDebt stream cfg (n + 1) s₀
        = fillDebt stream cfg n (refillStep stream cfg s₀) ∧
      (refillStep stream cfg s₀).areaDebt = s₀.areaDebt -
        mathPI * refillRadius stream cfg s₀ * refillRadius stream cfg s₀ ∧
      (s₀.winTiles ≠ [] →
        (refillStep stream cfg s₀).tiles.length = s₀.tiles.length + 1)) := by
  obtain ⟨_, _, _, _, _, _, _, fdebt, _⟩ :=
    foldl_finalizeStep_spec s.selectedTiles s hnd hchainnd hsome
  refine ⟨?_, ?_, ?_⟩
  · show (s.selectedTiles.foldl finalizeStep s).areaDebt = _
    exact fdebt
  · intro s' hfin
    have hne1 : ¬(s.selectedTiles.length = 1) := by omega
    have hgt1 : 1 < s.selectedTiles.length := by omega
    rw [finalizeConnection, if_neg hne1, if_pos hgt1] at hfin
    exact fillDebt_some_nonpos stream cfg fuel _ _ hfin
  · intro s₀ n hpos
    obtain ⟨_, _, _, r4, _, _, r7⟩ := refillStep_spec stream cfg s₀
    exact ⟨by rw [fillDebt, if_pos hpos], r4, r7⟩

/-- Witness for C6: removing a concrete two-tile chain of unit radii raises
the debt by `2π` (in exact `Math.PI` arithmetic). -/
theorem C6_area_debt_witness :
    (removePhase
        { tiles := [mkGameTile 0 0 0 0 0 1 1 true, mkGameTile 1 2 0 0 0 1 1 true],
          winTiles := [(1, 3)], collectedTiles := [], selectedTiles := [0, 1],
          areaDebt := 0, rng := 0, nextId := 2 }).areaDebt
      = 0 + ((chainTiles
        { tiles := [mkGameTile 0 0 0 0 0 1 1 true, mkGameTile 1 2 0 0 0 1 1 true],
          winTiles := [(1, 3)], collectedTiles := [], selectedTiles := [0, 1],
          areaDebt := 0, rng := 0, nextId := 2 }).map
          (fun t => mathPI * t.size * t.size)).sum :=
  (C6_area_debt (fun _ => 0)
    { width := 100, height := 100, minRadius := 1, maxRadius := 1 } 3 _
    (by decide) (by decide) (by decide) (by decide)).1

/-- C7 — Win condition: `isGameWon` is true iff every required color has a
collected count at least the required one; in particular required `{1:3}`
with collected `{1:3}` wins and with `{1:2}` does not. -/
theorem C7_win_condition :
    (∀ s : GameLevel, isGameWon s = true ↔
      ∀ p ∈ s.winTiles, ∃ k, mapGet s.collectedTiles p.1 = some k ∧ p.2 ≤ k) ∧
    isGameWon { tiles := [], winTiles := [(1, 3)], collectedTiles := [(1, 3)],
                selectedTiles := [], areaDebt := 0, rng := 0,
                nextId := 0 } = true ∧
    isGameWon { tiles := [], winTiles := [(1, 3)], collectedTiles := [(1, 2)],
                selectedTiles := [], areaDebt := 0, rng := 0,
                nextId := 0 } = false := by
  refine ⟨fun s => ?_, by decide, by decide⟩
  rw [isGameWon, List.all_eq_true]
  constructor
  · intro h p hp
    have hx := h p hp
    cases hg : mapGet s.collectedTiles p.1 with
    | none => rw [hg] at hx; cases hx
    | some k =>
      rw [hg] at hx
      exact ⟨k, rfl, of_decide_eq_true hx⟩
  · intro h p hp
    obtain ⟨k, hk, hle⟩ := h p hp
    rw [hk]
    exact decide_eq_true hle

/-- Witness for C7: the characterization applied at a concrete state. -/
theorem C7_win_condition_witness :
    isGameWon { tiles := [], winTiles := [(1, 3), (2, 1)],
                collectedTiles := [(2, 2), (1, 5)], selectedTiles := [],
                areaDebt := 0, rng := 0, nextId := 0 } = true :=
  (C7_win_condition.1 _).2 (by decide)

/-! ### Physics (`stepTiles`, `areTilesSettled`)

`Math.sqrt` is kept abstract as an oracle `sqrtF : ℚ → ℚ` (the exact square
root of a rational is irrational in general); the guard properties proved
below hold for every oracle, positivity of the divisor under the positivity
of the oracle on positive inputs, which is what IEEE `Math.sqrt` guarantees
on positive doubles. -/

def GRAVITY : ℚ := 8000
def DAMPING : ℚ := 99 / 100
def RESTITUTION : ℚ := 1 / 10
def SUBSTEPS : ℕ := 30
def SETTLE_THRESH : ℚ := 1 / 2
def FRICTION : ℚ := 9 / 10

/-- `a.weight || 1`: an unassigned (`undefined`) or zero weight falls back
to `1` (both are falsy in JavaScript). -/
def weightOr1 (t : Tile) : ℚ :=
  match t.weight with
  | none => 1
  | some w => if w = 0 then 1 else w

/-- `dx*dx + dy*dy` for the pair `(a, b)`. -/
def pairDistSq (a b : Tile) : ℚ :=
  (b.posX - a.posX) * (b.posX - a.posX) +
    (b.posY - a.posY) * (b.posY - a.posY)

/-- `minDist = a.size + b.size`. -/
def pairMinDist (a b : Tile) : ℚ := a.size + b.size

/-- The pairwise collision body of `stepTiles` for one pair `(a, b)`:
skip when not touching or exactly coincident; otherwise positional
correction split by the inverse-mass ratios, then (only for approaching
pairs) bounce and friction impulses with the same split. -/
def resolvePair (sqrtF : ℚ → ℚ) (a b : Tile) : Tile × Tile :=
  if pairDistSq a b ≥ pairMinDist a b * pairMinDist a b ∨ pairDistSq a b = 0
  then (a, b)
  else
    let dist := sqrtF (pairDistSq a b)
    let nx := (b.posX - a.posX) / dist
    let ny := (b.posY - a.posY) / dist
    let overlap := pairMinDist a b - dist
    let totalMass := weightOr1 a + weightOr1 b
    let rA := weightOr1 b / totalMass
    let rB := weightOr1 a / totalMass
    let a1 := { a with posX := a.posX - nx * overlap * rA,
                       posY := a.posY - ny * overlap * rA }
    let b1 := { b with posX := b.posX + nx * overlap * rB,
                       posY := b.posY + ny * overlap * rB }
    let relVelX := b1.velX - a1.velX
    let relVelY := b1.velY - a1.velY
    let velAlongNormal := relVelX * nx + relVelY * ny
    if velAlongNormal < 0 then
      let j := -(1 + RESTITUTION) * velAlongNormal
      let impulseX := j * nx
      let impulseY := j * ny
      let tx := -ny
      let ty := nx
      let velAlongTangent := relVelX * tx + relVelY * ty
      let frictionImpulse := velAlongTangent * (1 - FRICTION)
      ({ a1 with velX := a1.velX - impulseX * rA + tx * frictionImpulse * rA,
                 velY := a1.velY - impulseY * rA + ty * frictionImpulse * rA },
       { b1 with velX := b1.velX + impulseX * rB - tx * frictionImpulse * rB,
                 velY := b1.velY + impulseY * rB - ty * frictionImpulse * rB })
    else (a1, b1)

/-- Write the resolved pair back into the array at positions `i`, `j`. -/
def applyPair (sqrtF : ℚ → ℚ) (ts : List Tile) (i j : ℕ) : List Tile :=
  match ts[i]?, ts[j]? with
  | some a, some b =>
    let p := resolvePair sqrtF a b
    (ts.set i p.1).set j p.2
  | _, _ => ts

/-- Inner collision loop: `j` from `i+1` while `j < length`, driven by the
remaining count. -/
def innerPairs (sqrtF : ℚ → ℚ) (i : ℕ) : ℕ → ℕ → List Tile → List Tile
  | _, 0, ts => ts
  | j, k + 1, ts => innerPairs sqrtF i (j + 1) k (applyPair sqrtF ts i j)

/-- Outer collision loop over `i`. -/
def outerPairs (sqrtF : ℚ → ℚ) : ℕ → ℕ → List Tile → List Tile
  | _, 0, ts => ts
  | i, k + 1, ts =>
    outerPairs sqrtF (i + 1) k
      (innerPairs sqrtF i (i + 1) (ts.length - (i + 1)) ts)

/-- All ordered pairs `i < j` of one sub-step. -/
def pairPass (sqrtF : ℚ → ℚ) (ts : List Tile) : List Tile :=
  outerPairs sqrtF 0 ts.length ts

/-- Force integration for one tile and sub-step `dt`: gravity, position
update (with the updated vertical speed), then air damping. -/
def integrateTile (dt : ℚ) (t : Tile) : Tile :=
  { t with
      posX := t.posX + t.velX * dt,
      posY := t.posY + (t.velY + GRAVITY * dt) * dt,
      velX := t.velX * DAMPING,
      velY := (t.velY + GRAVITY * dt) * DAMPING }

/-- Wall, floor and ceiling clamping for one tile. -/
def wallTile (W H : ℚ) (t : Tile) : Tile :=
  let t1 := if t.posX < t.size then
      { t with posX := t.size, velX := t.velX * (-RESTITUTION),
               velY := t.velY * FRICTION } else t
  let t2 := if t1.posX > W - t1.size then
      { t1 with posX := W - t1.size, velX := t1.velX * (-RESTITUTION),
                velY := t1.velY * FRICTION } else t1
  let t3 := if t2.posY > H - t2.size then
      { t2 with posY := H - t2.size, velY := t2.velY * (-RESTITUTION),
                velX := t2.velX * FRICTION } else t2
  if t3.posY < -500 then { t3 with posY := -500, velY := 0 } else t3

/-- One sub-step of `stepTiles`: integrate all tiles, resolve all pairs,
clamp against the walls. -/
def subStep (sqrtF : ℚ → ℚ) (W H : ℚ) (ts : List Tile) : List Tile :=
  (pairPass sqrtF
    (ts.map (integrateTile ((1 / 60) / (SUBSTEPS : ℚ))))).map (wallTile W H)

/-- `stepTiles(tiles, W, H)`: `SUBSTEPS` sub-steps per frame. -/
def stepLoop (sqrtF : ℚ → ℚ) (W H : ℚ) : ℕ → List Tile → List Tile
  | 0, ts => ts
  | n + 1, ts => stepLoop sqrtF W H n (subStep sqrtF W H ts)

def stepTiles (sqrtF : ℚ → ℚ) (W H : ℚ) (ts : List Tile) : List Tile :=
  stepLoop sqrtF W H SUBSTEPS ts

/-- `areTilesSettled(tiles)`: false as soon as one velocity component
exceeds `SETTLE_THRESH` in magnitude. -/
def areTilesSettled (tiles : List Tile) : Bool :=
  tiles.all (fun t =>
    !(decide (SETTLE_THRESH < |t.velX|) || decide (SETTLE_THRESH < |t.velY|)))

/-- Modelled from the spec: "reports true iff every tile's speed is below
`threshold` on both axes" read literally, i.e. strictly below. -/
def settledBelowSpec (tiles : List Tile) : Prop :=
  ∀ t ∈ tiles, |t.velX| < SETTLE_THRESH ∧ |t.velY| < SETTLE_THRESH

lemma list_set_self {α : Type} (ts : List α) (i : ℕ) (a : α)
    (h : ts[i]? = some a) : ts.set i a = ts := by
  induction ts generalizing i with
  | nil => cases h
  | cons x rest ih =>
    cases i with
    | zero =>
      rw [List.getElem?_cons_zero] at h
      obtain rfl := Option.some.inj h
      rfl
    | succ n =>
      rw [List.getElem?_cons_succ] at h
      rw [List.set_cons_succ, ih n h]

/-- C8 (counterexample to the strict reading): at exactly the threshold
speed the code still reports settled, while "below the threshold" read
strictly does not hold. -/
theorem C8_settled_counterexample :
    areTilesSettled [mkGameTile 0 0 0 (1/2) 0 1 1] = true ∧
    ¬ settledBelowSpec [mkGameTile 0 0 0 (1/2) 0 1 1] := by
  constructor
  · with_unfolding_all decide
  · intro h
    obtain ⟨h1, _⟩ := h (mkGameTile 0 0 0 (1/2) 0 1 1)
      (by with_unfolding_all decide)
    revert h1
    with_unfolding_all decide

/-- C8 (amended) — The settled check returns true iff every tile's velocity
components are at most the threshold in absolute value (`|v| ≤ thresh`,
i.e. the comparison is non-strict at the boundary); the check only reads the
tiles. -/
theorem C8_settled_le (tiles : List Tile) :
    areTilesSettled tiles = true ↔
    ∀ t ∈ tiles, |t.velX| ≤ SETTLE_THRESH ∧ |t.velY| ≤ SETTLE_THRESH := by
  rw [areTilesSettled, List.all_eq_true]
  constructor
  · intro h t ht
    have hx := h t ht
    simp only [Bool.not_eq_true', Bool.or_eq_false_iff,
      decide_eq_false_iff_not, not_lt] at hx
    exact hx
  · intro h t ht
    simp only [Bool.not_eq_true', Bool.or_eq_false_iff,
      decide_eq_false_iff_not, not_lt]
    exact h t ht

/-- Witness for C8's amended check at a concrete one-tile list. -/
theorem C8_settled_le_witness :
    areTilesSettled [mkGameTile 0 1 1 0 0 1 1] = true :=
  (C8_settled_le _).2 (by with_unfolding_all decide)

/-- C9 — Degenerate-geometry safety: the collision body skips coincident
pairs (`distSq = 0`) and non-touching pairs (`distSq ≥ minDist²`), a skipped
coincident pair writes nothing back into the tile array, and on every
executed resolution branch the square-root divisor is nonzero (for any
square-root oracle positive on positive inputs, as `Math.sqrt` is). -/
theorem C9_degenerate_geometry (f : ℚ → ℚ) (a b : Tile) (ts : List Tile)
    (i j : ℕ) :
    (pairDistSq a b = 0 → resolvePair f a b = (a, b)) ∧
    (pairMinDist a b * pairMinDist a b ≤ pairDistSq a b →
      resolvePair f a b = (a, b)) ∧
    (ts[i]? = some a → ts[j]? = some b → pairDistSq a b = 0 →
      applyPair f ts i j = ts) ∧
    ((∀ q : ℚ, 0 < q → 0 < f q) →
      ¬(pairDistSq a b ≥ pairMinDist a b * pairMinDist a b ∨
          pairDistSq a b = 0) →
      f (pairDistSq a b) ≠ 0) := by
  have hskip : ∀ h : pairDistSq a b ≥ pairMinDist a b * pairMinDist a b ∨
      pairDistSq a b = 0, resolvePair f a b = (a, b) := by
    intro h
    rw [resolvePair, if_pos h]
  refine ⟨fun h => hskip (Or.inr h), fun h => hskip (Or.inl h), ?_, ?_⟩
  · intro hi hj h0
    rw [applyPair, hi, hj]
    simp only [hskip (Or.inr h0)]
    rw [list_set_self ts i a hi, list_set_self ts j b hj]
  · intro hf hg
    have h0 : pairDistSq a b ≠ 0 := fun hh => hg (Or.inr hh)
    have hnn : 0 ≤ pairDistSq a b :=
      add_nonneg (mul_self_nonneg _) (mul_self_nonneg _)
    exact ne_of_gt (hf _ (lt_of_le_of_ne hnn (Ne.symm h0)))

/-- Witness for C9: a concrete coincident pair is skipped and left in place,
and a concrete overlapping pair has a nonzero divisor. -/
theorem C9_degenerate_geometry_witness :
    resolvePair (fun _ => 1) (mkGameTile 0 3 3 0 0 1 1) (mkGameTile 1 3 3 0 0 1 1)
      = (mkGameTile 0 3 3 0 0 1 1, mkGameTile 1 3 3 0 0 1 1) ∧
    applyPair (fun _ => 1)
        [mkGameTile 0 3 3 0 0 1 1, mkGameTile 1 3 3 0 0 1 1] 0 1
      = [mkGameTile 0 3 3 0 0 1 1, mkGameTile 1 3 3 0 0 1 1] ∧
    (fun _ => (1 : ℚ)) (pairDistSq (mkGameTile 0 0 0 0 0 1 1)
        (mkGameTile 1 1 0 0 0 1 1)) ≠ 0 :=
  ⟨(C9_degenerate_geometry (fun _ => 1) _ _ [] 0 0).1
      (by with_unfolding_all decide),
   (C9_degenerate_geometry (fun _ => 1) _ _
      [mkGameTile 0 3 3 0 0 1 1, mkGameTile 1 3 3 0 0 1 1] 0 1).2.2.1
      rfl rfl (by with_unfolding_all decide),
   (C9_degenerate_geometry (fun _ => 1) (mkGameTile 0 0 0 0 0 1 1)
      (mkGameTile 1 1 0 0 0 1 1) [] 0 0).2.2.2
      (fun _ hq => one_pos) (by with_unfolding_all decide)⟩

/-- C10 — No `GameTile` carries a weight, so for weightless tiles both
collision mass ratios `rA = weight_b/(weight_a+weight_b)` and
`rB = weight_a/(...)` are `1/2`, and the positional correction, bounce and
friction impulses of `resolvePair` change the two tiles by exactly opposite
amounts on every component, whatever their radii. -/
theorem C10_equal_split (f : ℚ → ℚ) (a b : Tile)
    (id0 : ℕ) (px py vx vy sz : ℚ) (cid : ℕ) (hl : Bool)
    (ha : a.weight = none) (hb : b.weight = none) :
    (mkGameTile id0 px py vx vy sz cid hl).weight = none ∧
    weightOr1 b / (weightOr1 a + weightOr1 b) = 1 / 2 ∧
    weightOr1 a / (weightOr1 a + weightOr1 b) = 1 / 2 ∧
    (resolvePair f a b).1.posX - a.posX
      = -((resolvePair f a b).2.posX - b.posX) ∧
    (resolvePair f a b).1.posY - a.posY
      = -((resolvePair f a b).2.posY - b.posY) ∧
    (resolvePair f a b).1.velX - a.velX
      = -((resolvePair f a b).2.velX - b.velX) ∧
    (resolvePair f a b).1.velY - a.velY
      = -((resolvePair f a b).2.velY - b.velY) := by
  have hwa : weightOr1 a = 1 := by simp only [weightOr1, ha]
  have hwb : weightOr1 b = 1 := by simp only [weightOr1, hb]
  have hdelta :
      (resolvePair f a b).1.posX - a.posX
        = -((resolvePair f a b).2.posX - b.posX) ∧
      (resolvePair f a b).1.posY - a.posY
        = -((resolvePair f a b).2.posY - b.posY) ∧
      (resolvePair f a b).1.velX - a.velX
        = -((resolvePair f a b).2.velX - b.velX) ∧
      (resolvePair f a b).1.velY - a.velY
        = -((resolvePair f a b).2.velY - b.velY) := by
    by_cases hg : pairDistSq a b ≥ pairMinDist a b * pairMinDist a b ∨
        pairDistSq a b = 0
    · simp only [resolvePair, if_pos hg]
      refine ⟨?_, ?_, ?_, ?_⟩ <;> ring
    · simp only [resolvePair, if_neg hg]
      rw [hwa, hwb]
      split_ifs with hv <;> refine ⟨?_, ?_, ?_, ?_⟩ <;> dsimp only <;> ring
  exact ⟨rfl, by rw [hwa, hwb]; norm_num, by rw [hwa, hwb]; norm_num,
    hdelta.1, hdelta.2.1, hdelta.2.2.1, hdelta.2.2.2⟩

/-- Witness for C10: a concrete overlapping weightless pair splits the
positional correction equally. -/
theorem C10_equal_split_witness :
    (resolvePair (fun _ => 1) (mkGameTile 0 0 0 0 0 1 1)
        (mkGameTile 1 1 0 3 0 1 1)).1.posX - (mkGameTile 0 0 0 0 0 1 1).posX
      = -((resolvePair (fun _ => 1) (mkGameTile 0 0 0 0 0 1 1)
        (mkGameTile 1 1 0 3 0 1 1)).2.posX - (mkGameTile 1 1 0 3 0 1 1).posX) :=
  (C10_equal_split (fun _ => 1) (mkGameTile 0 0 0 0 0 1 1)
    (mkGameTile 1 1 0 3 0 1 1) 0 0 0 0 0 1 1 false rfl rfl).2.2.2.1

end Mosaic
